import Mathlib

/-!
# Verification of the active-redis core (payload codec, script runner, list scripts, cascading delete)

This file gives a shallow embedding of the active-redis source
(`active_redis/core.py`, `active_redis/datatype.py`, `active_redis/datatypes/list.py`)
and proves the frozen claims about it.

Python strings are modelled as `List Char` (named `Str` below); the Redis
store is modelled as an association list from keys to Redis objects; fallible
operations return `Except`; the unbounded recursion of the cascading-delete
Lua script is modelled with an explicit fuel parameter.
-/

/-- Python strings / Redis bulk strings, modelled as lists of characters. -/
abbrev Str := List Char

/-! ## The external JSON codec

`core.py` serializes inline values with `json.dumps` and deserializes them
with `json.loads`.  The `json` module is an external collaborator (the spec
only requires "a self-delimiting serialization that reproduces the original
value on decode"), so it is modelled here for a fragment of JSON scalar
values.  The claims about the codec only assume of it that
`json_loads (json_dumps v) = some v` for the values they quantify over. -/

/-- A fragment of the JSON values `json.dumps` / `json.loads` handle:
null, booleans, integers and strings. -/
inductive Val where
  | vnull : Val
  | vbool : Bool → Val
  | vint : Int → Val
  | vstr : Str → Val
deriving DecidableEq

/-- Model of `json.dumps` on the `Val` fragment. -/
def json_dumps : Val → Str
  | .vnull => "null".data
  | .vbool true => "true".data
  | .vbool false => "false".data
  | .vint n => (toString n).data
  | .vstr s => '"' :: s ++ ['"']

/-- Model of `json.loads` on the `Val` fragment (`none` = the library raises). -/
def json_loads (s : Str) : Option Val :=
  if s = "null".data then some .vnull
  else if s = "true".data then some (.vbool true)
  else if s = "false".data then some (.vbool false)
  else match s with
    | '"' :: rest =>
      if rest ≠ [] ∧ rest.getLast? = some '"' then some (.vstr rest.dropLast) else none
    | _ => (String.mk s).toInt?.map .vint

/-! ## Payload tags (`Encoder.REDIS_STRUCTURE_PREFIX`, `Encoder.ABSOLUTE_VALUE_PREFIX`)

`core.py` lines 65-66: the reference tag is the string `redis:struct` and the
inline tag is the string `redis:abs`.  They are written as explicit character
lists so that proofs can unfold them definitionally. -/

/-- `Encoder.REDIS_STRUCTURE_PREFIX = 'redis:struct'` (the reference tag). -/
def structTag : Str := ['r', 'e', 'd', 'i', 's', ':', 's', 't', 'r', 'u', 'c', 't']

/-- `Encoder.ABSOLUTE_VALUE_PREFIX = 'redis:abs'` (the inline tag). -/
def absTag : Str := ['r', 'e', 'd', 'i', 's', ':', 'a', 'b', 's']

/-- A Structure Handle: a client-side object bound to one store key and one
structure kind (`DataType` instances carry `key`; the kind is the
store-reported type name of the class the handle was built from). -/
structure Handle where
  key : Str
  kind : Str
deriving DecidableEq

/-- An argument to `Encoder.encode`: either a Structure Handle (a `DataType`
instance, detected by `Encoder._is_redis_item`) or a plain value. -/
inductive Item where
  | ref : Handle → Item
  | value : Val → Item
deriving DecidableEq

/-- `Encoder.encode` (core.py lines 71-90): a `DataType` becomes
`"%s:%s" % (REDIS_STRUCTURE_PREFIX, item.key)`, anything else becomes
`"%s:%s" % (ABSOLUTE_VALUE_PREFIX, json.dumps(item))`. -/
def encode : Item → Str
  | .ref h => structTag ++ ':' :: h.key
  | .value v => absTag ++ ':' :: json_dumps v

/-! ## The Redis store model

Keys map to at most one Redis object; the store is an association list with
distinct keys.  Only the commands the analyzed code issues are modelled. -/

/-- A server-resident Redis object. -/
inductive RObj where
  | rstring : Str → RObj
  | rlist : List Str → RObj
  | rhash : List (Str × Str) → RObj
  | rset : List Str → RObj
  | rzset : List Str → RObj
deriving DecidableEq

instance : Inhabited RObj := ⟨.rstring []⟩

/-- The key-value store: an association list from keys to objects. -/
abbrev Store := List (Str × RObj)

/-- Looks a key up in the store (first binding wins). -/
def assocLookup : Store → Str → Option RObj
  | [], _ => none
  | e :: es, k => if e.1 = k then some e.2 else assocLookup es k

/-- Replaces the object bound to a key (no-op on absent keys). -/
def assocSet (st : Store) (k : Str) (o : RObj) : Store :=
  st.map fun e => if e.1 = k then (k, o) else e

/-- The `DEL key` command: removes the key's binding. -/
def storeDel (k : Str) (st : Store) : Store :=
  st.filter fun e => !(e.1 == k)

/-- The `TYPE key` command: Redis reports `list`, `hash`, `set`, `zset`,
`string`, or `none` for a missing key. -/
def redisType (st : Store) (k : Str) : Str :=
  match assocLookup st k with
  | none => "none".data
  | some (.rstring _) => "string".data
  | some (.rlist _) => "list".data
  | some (.rhash _) => "hash".data
  | some (.rset _) => "set".data
  | some (.rzset _) => "zset".data

/-- The `LLEN key` command. -/
def llen (st : Store) (k : Str) : Nat :=
  match assocLookup st k with
  | some (.rlist xs) => xs.length
  | _ => 0

/-- The `LINDEX key i` command: a negative index counts from the tail
(`-1` is the last element); out-of-range indices return nil. -/
def lindexInt (st : Store) (k : Str) (i : Int) : Option Str :=
  match assocLookup st k with
  | some (.rlist xs) =>
    let j : Int := if i < 0 then (xs.length : Int) + i else i
    if 0 ≤ j then xs[j.toNat]? else none
  | _ => none

/-- `LINDEX` at a nonnegative index (the form the Lua walks use). -/
def lindexNat (st : Store) (k : Str) (i : Nat) : Option Str :=
  lindexInt st k (Int.ofNat i)

/-- The `RPUSH key v` command: appends at the tail, creating the list if the
key is absent.  (The WRONGTYPE error on a non-list key is not modelled; the
claims only push onto fresh or list keys.) -/
def rpush (st : Store) (k : Str) (v : Str) : Store :=
  match assocLookup st k with
  | some (.rlist xs) => assocSet st k (.rlist (xs ++ [v]))
  | some _ => st
  | none => st ++ [(k, .rlist [v])]

/-- Errors reported by the store itself. -/
inductive RedisErr where
  | wrongArity : RedisErr
  | indexOutOfRange : RedisErr
  | noSuchKey : RedisErr
deriving DecidableEq

/-- The `LSET key i v` command: errors on a missing key or an out-of-range
index, otherwise overwrites the element in place. -/
def lset (st : Store) (k : Str) (i : Int) (v : Str) : Except RedisErr Store :=
  match assocLookup st k with
  | some (.rlist xs) =>
    let j : Int := if i < 0 then (xs.length : Int) + i else i
    if 0 ≤ j ∧ j < (xs.length : Int) then
      .ok (assocSet st k (.rlist (xs.set j.toNat v)))
    else .error .indexOutOfRange
  | _ => .error .noSuchKey

/-- Removes the first `n` occurrences of `v` from a list of payloads. -/
def removeFirstOcc : Nat → List Str → Str → List Str
  | _, [], _ => []
  | 0, xs, _ => xs
  | n + 1, x :: xs, v =>
    if x = v then removeFirstOcc n xs v else x :: removeFirstOcc (n + 1) xs v

/-- The `LREM key count v` command: `count = 0` removes every occurrence of
`v`, `count > 0` removes the first `count` occurrences from the head,
`count < 0` removes the last `|count|` occurrences. -/
def lrem (st : Store) (k : Str) (count : Int) (v : Str) : Store :=
  match assocLookup st k with
  | some (.rlist xs) =>
    let xs' :=
      if count = 0 then xs.filter (fun x => !(x == v))
      else if 0 < count then removeFirstOcc count.toNat xs v
      else (removeFirstOcc (-count).toNat xs.reverse v).reverse
    assocSet st k (.rlist xs')
  | _ => st

/-- The `HVALS key` command: all field values of a hash (empty otherwise). -/
def hvals (st : Store) (k : Str) : List Str :=
  match assocLookup st k with
  | some (.rhash fs) => fs.map (·.2)
  | _ => []

/-- The `SMEMBERS key` command. -/
def smembers (st : Store) (k : Str) : List Str :=
  match assocLookup st k with
  | some (.rset xs) => xs
  | _ => []

/-- `ZRANGE key 0 count` with `count = ZCARD key`, as issued by the
cascading-delete script: all members of a sorted set. -/
def zrangeAll (st : Store) (k : Str) : List Str :=
  match assocLookup st k with
  | some (.rzset xs) => xs
  | _ => []

/-! ## Handle Registry and the decoder

`core.py`'s `Encoder._decode_redis_value` resolves the store-reported type
name through `DataType.get`, which delegates to the registry module.

Modelled from the spec: the registry module (`registry.py`) is not under
`src/`; per the spec the Handle Registry "maps a store-reported type name
(`list`, `hash`, ...) to the concrete Structure Handle implementation", so it
is modelled as recognizing exactly the type names the store reports for
existing keys. -/

/-- Whether the Handle Registry has a Structure Handle implementation for a
store-reported type name. -/
def registryHas (t : Str) : Bool :=
  t = "string".data || t = "list".data || t = "hash".data ||
    t = "set".data || t = "zset".data

/-- The result of `Encoder.decode`: a bound Structure Handle (for a reference
payload) or a plain value (for an inline payload). -/
inductive Decoded where
  | handle : Handle → Decoded
  | value : Val → Decoded
deriving DecidableEq

/-- Errors raised by `Encoder.decode`.  `decodingError` is the spec's
`DecodingError` (the code's `EncodingError`; `exception.py` is not under
`src/`, so the error class is modelled from the spec's taxonomy);
`valueError` is the error `json.loads` raises on malformed input. -/
inductive DecodeErr where
  | decodingError : DecodeErr
  | valueError : DecodeErr
deriving DecidableEq

/-- `Encoder.decode` (core.py lines 92-119), instrumented with the number of
store round-trips the call performs.  A value starting with the reference tag
takes `_decode_redis_value`: the key is `value[len(REDIS_STRUCTURE_PREFIX)+1:]`,
its reported type is looked up once (`self.client.type(key)`), a reported
`none` raises, and otherwise the registry's handler for the reported type is
constructed bound to the key (an unrecognized type also surfaces as the
spec's `DecodingError`, see `registryHas`).  A value starting with the inline
tag takes `_decode_structure_value`: `json.loads` of
`value[len(ABSOLUTE_VALUE_PREFIX)+1:]`, with no store access.  Any other
value raises. -/
def decodeCount (st : Store) (s : Str) : Except DecodeErr Decoded × Nat :=
  if structTag.isPrefixOf s then
    let key := s.drop (structTag.length + 1)
    let t := redisType st key
    (if t = "none".data then .error .decodingError
     else if registryHas t then .ok (.handle ⟨key, t⟩)
     else .error .decodingError, 1)
  else if absTag.isPrefixOf s then
    (match json_loads (s.drop (absTag.length + 1)) with
     | some v => .ok (.value v)
     | none => .error .valueError, 0)
  else (.error .decodingError, 0)

/-- `Encoder.decode` without the round-trip count. -/
def decodeD (st : Store) (s : Str) : Except DecodeErr Decoded :=
  (decodeCount st s).1

/-! ## The script runner (`Script.register` / `Script.execute`)

`core.py` lines 248-322 and `datatype.py` lines 135-211 share the same
resolution logic: each declared key parameter, in declaration order, is
looked up by name in `kwargs` and otherwise consumes `args[current_index]`,
advancing the cursor; the declared argument parameters then continue with
the same cursor; an exhausted positional list raises.  `exception.py` is not
under `src/`, so the raised error is modelled from the spec's taxonomy as
`ScriptArgumentError`. -/

/-- The error `Script.execute` raises when a declared parameter has neither a
named entry nor a remaining positional value (spec: `ScriptArgumentError`). -/
inductive ScriptErr where
  | scriptArgumentError : ScriptErr
deriving DecidableEq

/-- Name lookup in the `kwargs` dictionary. -/
def lookupNamed (named : List (Str × α)) (p : Str) : Option α :=
  (named.find? fun e => e.1 == p).map (·.2)

/-- The parameter-resolution loop of `Script.execute`, for one declared
parameter list, starting at positional cursor `idx`: `kwargs[param]` first,
else `args[current_index]` with `current_index += 1`, else the error.
Returns the resolved values and the final cursor. -/
def resolveParams (named : List (Str × α)) (pos : List α) :
    List Str → Nat → Except ScriptErr (List α × Nat)
  | [], idx => .ok ([], idx)
  | p :: ps, idx =>
    match lookupNamed named p with
    | some v =>
      match resolveParams named pos ps idx with
      | .ok (vs, j) => .ok (v :: vs, j)
      | .error e => .error e
    | none =>
      match pos[idx]? with
      | some v =>
        match resolveParams named pos ps (idx + 1) with
        | .ok (vs, j) => .ok (v :: vs, j)
        | .error e => .error e
      | none => .error .scriptArgumentError

/-- `Script.execute`: resolves the declared `keys` parameters from cursor 0,
then the declared `args` parameters continuing with the same cursor, and only
then dispatches the script body against the store (the `prepare` and
`process` hooks default to the identity).  On a resolution error the body is
never invoked, so no store effect is produced. -/
def Script_execute (keys args : List Str)
    (body : List α → List α → Store → α × Store)
    (pos : List α) (named : List (Str × α)) (st : Store) :
    Except ScriptErr (α × Store) :=
  match resolveParams named pos keys 0 with
  | .error e => .error e
  | .ok (ks, i) =>
    match resolveParams named pos args i with
    | .error e => .error e
    | .ok (as2, _) => .ok (body ks as2 st)

/-- The number of declared parameters that have no named entry — each of
these consumes one positional argument in `Script.execute`. -/
def countUnnamed (named : List (Str × α)) (params : List Str) : Nat :=
  (params.filter fun p => (lookupNamed named p).isNone).length

/-- The per-process, per-script-id registration state of a `Script` subclass:
the class-level `is_registered` flag, together with a count of how many times
`register_script` uploaded the body to the store. -/
structure ScriptRegState where
  isRegistered : Bool
  uploads : Nat
deriving DecidableEq

/-- `Script.register` (datatype.py lines 153-160, core.py lines 265-271): if
the class is not yet registered, upload the body (`register_script`), store
the compiled reference on the class and set the flag; otherwise do nothing. -/
def Script_register (s : ScriptRegState) : ScriptRegState :=
  if s.isRegistered then s else { isRegistered := true, uploads := s.uploads + 1 }

/-- The registration step of `Script.execute` (lines 172-173): register
exactly when the class-level flag is not yet set. -/
def Script_executeReg (s : ScriptRegState) : ScriptRegState :=
  if s.isRegistered then Script_register s else Script_register s

/-- A call that touches the registration state: `register(script)` or an
execution of the script. -/
inductive RegOp where
  | register : RegOp
  | execute : RegOp
deriving DecidableEq

/-- Applies one `register`/`execute` call to the registration state. -/
def applyRegOp (s : ScriptRegState) : RegOp → ScriptRegState
  | .register => Script_register s
  | .execute => Script_executeReg s

/-- Applies a sequence of `register`/`execute` calls in order. -/
def applyRegOps (s : ScriptRegState) (ops : List RegOp) : ScriptRegState :=
  ops.foldl applyRegOp s

/-! ## The cascading-delete script (`DeleteAll`, core.py lines 324-402)

The Lua script walks a structure's elements, recursively deletes every
element whose payload carries the reference tag, and then deletes the
container's own key.  Its recursion is unbounded (and does not defend
against cycles), so the embedding carries an explicit fuel parameter; every
recursive call, including each iteration of the list-index walk, consumes
one unit of fuel. -/

/-- Lua `is_redis_datatype(value)`: `string.find(value, 'redis:struct') == 1`,
i.e. the payload starts with the reference tag. -/
def isRedisDatatype (v : Str) : Bool :=
  structTag.isPrefixOf v

/-- Lua `get_reference(value)`: `string.sub(value, 14)` drops the 13
characters of `redis:struct:` and returns the referenced key. -/
def getReference (v : Str) : Str :=
  v.drop 13

mutual

/-- Lua `delete_references(key)`: dispatch on `TYPE key` — lists get a
positional walk, hashes walk `HVALS`, sets walk `SMEMBERS`, the (dead,
because `TYPE` reports `zset`) `sorted_set` branch walks `ZRANGE`, and any
other type is deleted with no walk; every container branch ends by deleting
the key itself. -/
def deleteRefs : Nat → Store → Str → Store
  | 0, st, _ => st
  | fuel + 1, st, key =>
    let t := redisType st key
    if t = "list".data then storeDel key (walkListRefs fuel st key 0)
    else if t = "hash".data then storeDel key (walkVals fuel st (hvals st key))
    else if t = "set".data then storeDel key (walkVals fuel st (smembers st key))
    else if t = "sorted_set".data then storeDel key (walkVals fuel st (zrangeAll st key))
    else storeDel key st

/-- Lua `delete_list(key)` walk: `LINDEX key i` from `i = 0`, calling
`check_references` on each element, until the read returns nil. -/
def walkListRefs : Nat → Store → Str → Nat → Store
  | 0, st, _, _ => st
  | fuel + 1, st, key, i =>
    match lindexNat st key i with
    | none => st
    | some v => walkListRefs fuel (checkRefs fuel st v) key (i + 1)

/-- The `check_references` fold over a pre-fetched element list (the
`delete_hash`, `delete_set` and `delete_sorted_set` walks). -/
def walkVals : Nat → Store → List Str → Store
  | 0, st, _ => st
  | _ + 1, st, [] => st
  | fuel + 1, st, v :: vs => walkVals fuel (checkRefs fuel st v) vs

/-- Lua `check_references(value)`: recurse into `delete_references` exactly
when the payload carries the reference tag; inline payloads are untouched. -/
def checkRefs : Nat → Store → Str → Store
  | 0, st, _ => st
  | fuel + 1, st, v =>
    if isRedisDatatype v then deleteRefs fuel st (getReference v) else st

end

/-- `DataType.delete` as reachable from a list handle (datatype.py lines
131-133): `self.redis.delete(self.key)`, a plain single-key `DEL` with no
element walk.  `datatypes/list.py`'s `List` extends datatype.py's `DataType`
— the `@DataType.register` and `@List.script` classmethods and the
`self.redis` attribute it relies on exist only there — so this is the
`delete()` every list handle inherits.  core.py's parallel
`DataType.delete` would run the `DeleteAll` script (core.py lines 163-165),
but that path cannot execute: core.py's `DataType.__new__` takes
metaclass-style `(cls, name, bases, attr)` arguments so the class cannot be
instantiated, its `__setattr__` drops every attribute assignment so
`self.key`/`self.client` are never set, and `_load_script` dereferences
`self.key.client` (core.py line 155).  The `DeleteAll` script body is
embedded above as `deleteRefs` but is never executed by `delete()`. -/
def DataType_delete (st : Store) (key : Str) : Store :=
  storeDel key st

/-! ## The list datatype (`datatypes/list.py`)

`datatypes/list.py` re-registers the `list` handler, superseding the stub in
`datatype.py`.  Its compound operations go through the script runner with
the scripts below; `self.encode`/`self.decode` are the Codec's operations
(spec §4.1), and `self.wrap` (the observer wrapper, not under `src/`) is the
identity on non-observable decoded values such as scalars, per
`Observer.observe` in core.py lines 179-184. -/

/-- `List.append(item)`: `RPUSH key encode(item)`. -/
def List_append (st : Store) (key : Str) (it : Item) : Store :=
  rpush st key (encode it)

/-- The sentinel value `'____delete____'` used by the `ListPop` script. -/
def delval : Str := "____delete____".data

/-- The `ListPop` Lua script (datatypes/list.py lines 107-123): read
`LINDEX key index`, overwrite that position with the sentinel via `LSET`,
remove every sentinel occurrence via `LREM key 0`, and return the read item.
An out-of-range `LSET` aborts the script with the store's error. -/
def ListPop_run (st : Store) (key : Str) (index : Int) :
    Except RedisErr (Option Str × Store) :=
  let item := lindexInt st key index
  match lset st key index delval with
  | .error e => .error e
  | .ok st1 => .ok (item, lrem st1 key 0 delval)

/-- `List.pop(index)` (datatypes/list.py lines 65-68): executes the `pop`
script (`keys = ['key']`, `args = ['index']`, resolved positionally) and
returns the script's result unchanged — `ListPop` defines no `process` hook,
so the raw stored payload is returned, with no decoding step. -/
def List_pop (st : Store) (key : Str) (index : Int) :
    Except RedisErr (Option Str × Store) :=
  ListPop_run st key index

/-- The call `redis.call('LINSERT', key, pivot, item)` issued by the
`ListInsert` Lua script.  The real `LINSERT` command requires four
arguments — `key`, `BEFORE|AFTER`, `pivot`, `element` — but the script
supplies only three (the `BEFORE|AFTER` modifier is missing), so the store
rejects the call with a wrong-number-of-arguments error before doing
anything, which aborts the script. -/
def redisCallLinsert3 (_st : Store) (_key : Str) (_pivot : Option Str)
    (_item : Str) : Except RedisErr (Store × Int) :=
  .error .wrongArity

/-- The `ListInsert` Lua script (datatypes/list.py lines 91-105):
`return redis.call('LINSERT', key, redis.call('LINDEX', key, index), item)`. -/
def ListInsert_run (st : Store) (key : Str) (index : Int) (item : Str) :
    Except RedisErr (Store × Int) :=
  redisCallLinsert3 st key (lindexInt st key index) item

/-- `List.insert(index, item)` (datatypes/list.py lines 57-59): executes the
`insert` script on `(key, index, encode(item))`; a store-side error
propagates to the caller unconverted (unlike `__delitem__`, no
`except ResponseError` clause turns it into `IndexError`). -/
def List_insert (st : Store) (key : Str) (index : Int) (it : Item) :
    Except RedisErr (Store × Int) :=
  ListInsert_run st key index (encode it)

/-- Errors a list read can surface to the caller: the `IndexError` raised on
an absent index, or an error from decoding the stored payload. -/
inductive PyErr where
  | indexError : PyErr
  | decodeErr : DecodeErr → PyErr
deriving DecidableEq

/-- `List.index(index)` (datatypes/list.py lines 70-76): `LINDEX key index`,
raising `IndexError` when the read returns nil and otherwise returning
`self.decode(item)`. -/
def List_index_py (st : Store) (key : Str) (i : Int) : Except PyErr Decoded :=
  match lindexInt st key i with
  | none => .error .indexError
  | some item =>
    match decodeD st item with
    | .ok d => .ok d
    | .error e => .error (.decodeErr e)

/-- `List.__getitem__(key)` (datatypes/list.py lines 27-32): identical read
and `IndexError` behavior, returning `self.wrap(self.decode(item), key)`
(`wrap` is the identity on the non-observable decoded results modelled
here). -/
def List_getitem (st : Store) (key : Str) (i : Int) : Except PyErr Decoded :=
  match lindexInt st key i with
  | none => .error .indexError
  | some item =>
    match decodeD st item with
    | .ok d => .ok d
    | .error e => .error (.decodeErr e)

/-- `List.__iter__` (datatypes/list.py lines 14-21): `LINDEX key i` from
`i = 0`, yielding the decoded element and advancing, until a read returns
nil.  Both commands the loop issues (`LINDEX`, and `TYPE` inside a reference
decode) are reads, so the store is threaded through unchanged; the returned
pair is the yielded sequence together with the store as the loop leaves it.
The generator is unbounded a priori, so the embedding carries fuel. -/
def List_iterRun : Nat → Store → Str → Nat → List (Except DecodeErr Decoded) × Store
  | 0, st, _, _ => ([], st)
  | fuel + 1, st, key, i =>
    match lindexNat st key i with
    | none => ([], st)
    | some item =>
      let d := decodeD st item
      let r := List_iterRun fuel st key (i + 1)
      (d :: r.1, r.2)

/-! ## Helper lemmas about the payload tags -/

theorem structTag_self_pre (s : Str) :
    structTag.isPrefixOf (structTag ++ ':' :: s) = true := by
  simp

theorem absTag_self_pre (s : Str) :
    absTag.isPrefixOf (absTag ++ ':' :: s) = true := by
  simp

theorem structTag_not_pre_abs (s : Str) :
    structTag.isPrefixOf (absTag ++ ':' :: s) = false := rfl

theorem absTag_not_pre_struct (t : Str) :
    absTag.isPrefixOf (structTag ++ t) = false := rfl

theorem structTag_strip (s : Str) :
    (structTag ++ ':' :: s).drop (structTag.length + 1) = s := rfl

theorem absTag_strip (s : Str) :
    (absTag ++ ':' :: s).drop (absTag.length + 1) = s := rfl

theorem structTag_strip_gen (t : Str) :
    (structTag ++ t).drop (structTag.length + 1) = t.drop 1 := rfl

theorem getReference_encode (k : Str) : getReference (structTag ++ ':' :: k) = k := rfl

theorem isRedisDatatype_ref (k : Str) :
    isRedisDatatype (structTag ++ ':' :: k) = true := by
  simp [isRedisDatatype]

theorem isRedisDatatype_abs (v : Val) :
    isRedisDatatype (encode (.value v)) = false := rfl

theorem encode_value_ne_delval (v : Val) : encode (.value v) ≠ delval := by
  intro h
  exact absurd (congrArg (fun l => l.take 1) h) (by simp [encode, absTag, delval])

/-! ## Helper lemmas about the store model -/

theorem assocLookup_eq_none_iff (st : Store) (k : Str) :
    assocLookup st k = none ↔ ∀ e ∈ st, e.1 ≠ k := by
  induction st with
  | nil => simp [assocLookup]
  | cons e es ih =>
    by_cases h : e.1 = k
    · simp [assocLookup, h]
    · simp [assocLookup, h, ih]

theorem assocLookup_append_of_none {st : Store} {k : Str}
    (h : assocLookup st k = none) (l : Store) :
    assocLookup (st ++ l) k = assocLookup l k := by
  induction st with
  | nil => rfl
  | cons e es ih =>
    rw [assocLookup_eq_none_iff] at h
    have he : e.1 ≠ k := h e (by simp)
    have hes : assocLookup es k = none := by
      rw [assocLookup_eq_none_iff]; exact fun x hx => h x (by simp [hx])
    simpa [assocLookup, he] using ih hes

theorem assocSet_id (o : RObj) (st : Store) (k : Str)
    (h : ∀ e ∈ st, e.1 ≠ k) : assocSet st k o = st := by
  induction st with
  | nil => rfl
  | cons e es ih =>
    have he : e.1 ≠ k := h e (List.mem_cons_self e es)
    have hes : ∀ x ∈ es, x.1 ≠ k := fun x hx => h x (List.mem_cons_of_mem e hx)
    have ih2 := ih hes
    simp only [assocSet, List.map_cons, if_neg he] at ih2 ⊢
    rw [ih2]

theorem assocSet_append_of_none {st : Store} {k : Str}
    (h : assocLookup st k = none) (l : Store) (o : RObj) :
    assocSet (st ++ l) k o = st ++ assocSet l k o := by
  have h1 := (assocLookup_eq_none_iff st k).mp h
  have h2 := assocSet_id o st k h1
  simp only [assocSet, List.map_append] at h2 ⊢
  rw [h2]

theorem lindexInt_nonneg {st : Store} {k : Str} {xs : List Str}
    (h : assocLookup st k = some (.rlist xs)) (i : Int) (hi : 0 ≤ i) :
    lindexInt st k i = xs[i.toNat]? := by
  simp only [lindexInt, h]
  rw [if_neg (by omega : ¬ i < 0), if_pos hi]

theorem lindexNat_eq {st : Store} {k : Str} {xs : List Str}
    (h : assocLookup st k = some (.rlist xs)) (i : Nat) :
    lindexNat st k i = xs[i]? := by
  rw [lindexNat, lindexInt_nonneg h (Int.ofNat i) (Int.ofNat_nonneg i)]
  simp

theorem lindexInt_neg {st : Store} {k : Str} {xs : List Str}
    (h : assocLookup st k = some (.rlist xs)) (i : Int)
    (h1 : -(xs.length : Int) ≤ i) (h2 : i ≤ -1) :
    lindexInt st k i = xs[((xs.length : Int) + i).toNat]? := by
  simp only [lindexInt, h]
  rw [if_pos (by omega : i < 0), if_pos (by omega : (0 : Int) ≤ (xs.length : Int) + i)]

theorem lindexInt_none_iff {st : Store} {k : Str} {xs : List Str}
    (h : assocLookup st k = some (.rlist xs)) (i : Int) :
    lindexInt st k i = none ↔ (i < -(xs.length : Int) ∨ (xs.length : Int) ≤ i) := by
  simp only [lindexInt, h]
  by_cases hi : i < 0
  · rw [if_pos hi]
    by_cases hj : (0 : Int) ≤ (xs.length : Int) + i
    · rw [if_pos hj, List.getElem?_eq_none_iff]
      omega
    · rw [if_neg hj]
      constructor
      · intro _; omega
      · intro _; rfl
  · rw [if_neg hi, if_pos (by omega : (0 : Int) ≤ i), List.getElem?_eq_none_iff]
    omega

theorem decode_encode_value (st : Store) (v : Val)
    (h : json_loads (json_dumps v) = some v) :
    decodeCount st (encode (.value v)) = (.ok (.value v), 0) := by
  simp only [encode, decodeCount, structTag_not_pre_abs, absTag_self_pre, absTag_strip, h,
    Bool.false_eq_true, if_false, if_true]

theorem exists_of_isPrefixOf {l p : Str} (h : l.isPrefixOf p = true) :
    ∃ t, p = l ++ t := by
  obtain ⟨t, ht⟩ := List.isPrefixOf_iff_prefix.mp h
  exact ⟨t, ht.symm⟩

/-! ## Helper lemmas about the cascading-delete walks -/

theorem checkRefs_inline (fuel : Nat) (st : Store) {v : Str}
    (h : isRedisDatatype v = false) : checkRefs fuel st v = st := by
  cases fuel with
  | zero => rfl
  | succ f => simp [checkRefs, h]

theorem walkVals_inline :
    ∀ (vs : List Str) (fuel : Nat) (st : Store), vs.length ≤ fuel →
      (∀ v ∈ vs, isRedisDatatype v = false) → walkVals fuel st vs = st := by
  intro vs
  induction vs with
  | nil =>
    intro fuel st _ _
    cases fuel with
    | zero => rfl
    | succ f => rfl
  | cons v vs ih =>
    intro fuel st hlen hv
    cases fuel with
    | zero => simp at hlen
    | succ f =>
      have hvv : isRedisDatatype v = false := hv v (List.mem_cons_self v vs)
      have hvs : ∀ x ∈ vs, isRedisDatatype x = false :=
        fun x hx => hv x (List.mem_cons_of_mem v hx)
      calc walkVals (f + 1) st (v :: vs)
          = walkVals f (checkRefs f st v) vs := rfl
        _ = walkVals f st vs := by rw [checkRefs_inline f st hvv]
        _ = st := ih f st (by simp only [List.length_cons] at hlen; omega) hvs

/-! ## Helper lemmas about the script runner -/

theorem countUnnamed_nil (named : List (Str × α)) : countUnnamed named [] = 0 := rfl

theorem countUnnamed_cons_named {named : List (Str × α)} {p : Str} {v : α}
    (h : lookupNamed named p = some v) (ps : List Str) :
    countUnnamed named (p :: ps) = countUnnamed named ps := by
  simp [countUnnamed, List.filter, h]

theorem countUnnamed_cons_unnamed {named : List (Str × α)} {p : Str}
    (h : lookupNamed named p = none) (ps : List Str) :
    countUnnamed named (p :: ps) = countUnnamed named ps + 1 := by
  simp [countUnnamed, List.filter, h]

theorem countUnnamed_append (named : List (Str × α)) (ps qs : List Str) :
    countUnnamed named (ps ++ qs) = countUnnamed named ps + countUnnamed named qs := by
  simp [countUnnamed, List.filter_append]

theorem resolveParams_spec (named : List (Str × α)) (pos : List α) :
    ∀ (ps : List Str) (idx : Nat),
      ((∃ r, resolveParams named pos ps idx = .ok r) ↔
        (countUnnamed named ps = 0 ∨ idx + countUnnamed named ps ≤ pos.length)) ∧
      (∀ vs j, resolveParams named pos ps idx = .ok (vs, j) →
        j = idx + countUnnamed named ps) := by
  intro ps
  induction ps with
  | nil =>
    intro idx
    refine ⟨⟨fun _ => Or.inl rfl, fun _ => ⟨([], idx), rfl⟩⟩, ?_⟩
    intro vs j hok
    simp only [resolveParams] at hok
    cases hok
    simp [countUnnamed_nil]
  | cons p ps ih =>
    intro idx
    cases hn : lookupNamed named p with
    | some v =>
      have hcnt := countUnnamed_cons_named hn ps
      constructor
      · constructor
        · rintro ⟨r, hr⟩
          simp only [resolveParams, hn] at hr
          cases hrec : resolveParams named pos ps idx with
          | ok r2 => exact hcnt ▸ ((ih idx).1.mp ⟨r2, hrec⟩)
          | error e => rw [hrec] at hr; cases hr
        · intro hle
          obtain ⟨⟨vs, j⟩, hr⟩ := (ih idx).1.mpr (hcnt ▸ hle)
          exact ⟨(v :: vs, j), by simp only [resolveParams, hn, hr]⟩
      · intro vs j hok
        simp only [resolveParams, hn] at hok
        cases hrec : resolveParams named pos ps idx with
        | ok r2 =>
          obtain ⟨vs2, j2⟩ := r2
          rw [hrec] at hok
          injection hok with h1
          injection h1 with hv hj
          rw [← hj, hcnt]
          exact (ih idx).2 vs2 j2 hrec
        | error e => rw [hrec] at hok; cases hok
    | none =>
      have hcnt := countUnnamed_cons_unnamed hn ps
      cases hp : pos[idx]? with
      | some v =>
        have hidx : idx < pos.length := by
          by_contra hc
          rw [List.getElem?_eq_none_iff.mpr (by omega)] at hp
          cases hp
        constructor
        · constructor
          · rintro ⟨r, hr⟩
            simp only [resolveParams, hn, hp] at hr
            cases hrec : resolveParams named pos ps (idx + 1) with
            | ok r2 =>
              have := (ih (idx + 1)).1.mp ⟨r2, hrec⟩
              rw [hcnt]
              omega
            | error e => rw [hrec] at hr; cases hr
          · intro hle
            have hrec : ∃ r, resolveParams named pos ps (idx + 1) = .ok r := by
              apply (ih (idx + 1)).1.mpr
              rw [hcnt] at hle
              omega
            obtain ⟨⟨vs, j⟩, hr⟩ := hrec
            exact ⟨(v :: vs, j), by simp only [resolveParams, hn, hp, hr]⟩
        · intro vs j hok
          simp only [resolveParams, hn, hp] at hok
          cases hrec : resolveParams named pos ps (idx + 1) with
          | ok r2 =>
            obtain ⟨vs2, j2⟩ := r2
            rw [hrec] at hok
            injection hok with h1
            injection h1 with hv hj
            have h2 := (ih (idx + 1)).2 vs2 j2 hrec
            rw [← hj, hcnt]
            omega
          | error e => rw [hrec] at hok; cases hok
      | none =>
        have hidx : pos.length ≤ idx := by
          by_contra hc
          have hlt : idx < pos.length := by omega
          have hv := List.getElem?_eq_getElem hlt
          rw [hp] at hv
          cases hv
        constructor
        · constructor
          · rintro ⟨r, hr⟩
            simp only [resolveParams, hn, hp] at hr
            cases hr
          · intro hle
            rw [hcnt] at hle
            omega
        · intro vs j hok
          simp only [resolveParams, hn, hp] at hok
          cases hok

theorem resolveParams_append (named : List (Str × α)) (pos : List α) :
    ∀ (ps qs : List Str) (idx : Nat) (ks : List α) (i : Nat) (as2 : List α) (j : Nat),
      resolveParams named pos ps idx = .ok (ks, i) →
      resolveParams named pos qs i = .ok (as2, j) →
      resolveParams named pos (ps ++ qs) idx = .ok (ks ++ as2, j) := by
  intro ps
  induction ps with
  | nil =>
    intro qs idx ks i as2 j h1 h2
    simp only [resolveParams] at h1
    injection h1 with h1
    injection h1 with hks hi
    subst hks
    subst hi
    simpa using h2
  | cons p ps ih =>
    intro qs idx ks i as2 j h1 h2
    cases hn : lookupNamed named p with
    | some v =>
      simp only [resolveParams, hn] at h1
      cases hrec : resolveParams named pos ps idx with
      | ok r2 =>
        obtain ⟨vs2, j2⟩ := r2
        rw [hrec] at h1
        injection h1 with h1
        injection h1 with hks hi
        subst hks
        subst hi
        have h3 := ih qs idx vs2 j2 as2 j hrec h2
        simp only [List.cons_append, resolveParams, hn, List.append_eq, h3]
      | error e => rw [hrec] at h1; cases h1
    | none =>
      simp only [resolveParams, hn] at h1
      cases hp : pos[idx]? with
      | some v =>
        rw [hp] at h1
        cases hrec : resolveParams named pos ps (idx + 1) with
        | ok r2 =>
          obtain ⟨vs2, j2⟩ := r2
          rw [hrec] at h1
          injection h1 with h1
          injection h1 with hks hi
          subst hks
          subst hi
          have h3 := ih qs (idx + 1) vs2 j2 as2 j hrec h2
          simp only [List.cons_append, resolveParams, hn, hp, List.append_eq, h3]
        | error e => rw [hrec] at h1; cases h1
      | none => rw [hp] at h1; cases h1

/-- `Script.register` / `Script.execute` leave a registered state alone. -/
theorem applyRegOp_registered {s : ScriptRegState} (h : s.isRegistered = true)
    (op : RegOp) : applyRegOp s op = s := by
  cases op with
  | register => simp [applyRegOp, Script_register, h]
  | execute => simp [applyRegOp, Script_executeReg, Script_register, h]

theorem applyRegOps_registered {s : ScriptRegState} (h : s.isRegistered = true)
    (ops : List RegOp) : applyRegOps s ops = s := by
  induction ops with
  | nil => rfl
  | cons op ops ih =>
    calc applyRegOps s (op :: ops)
        = applyRegOps (applyRegOp s op) ops := rfl
      _ = applyRegOps s ops := by rw [applyRegOp_registered h op]
      _ = s := ih

/-! ## Helper lemmas about `RPUSH` on a fresh key -/

theorem rpush_fresh {st0 : Store} {key : Str} (h0 : assocLookup st0 key = none)
    (v : Str) : rpush st0 key v = st0 ++ [(key, .rlist [v])] := by
  simp [rpush, h0]

theorem assocLookup_single_self {st0 : Store} {key : Str}
    (h0 : assocLookup st0 key = none) (o : RObj) :
    assocLookup (st0 ++ [(key, o)]) key = some o := by
  rw [assocLookup_append_of_none h0]
  simp [assocLookup]

theorem rpush_existing {st0 : Store} {key : Str} (h0 : assocLookup st0 key = none)
    (xs : List Str) (v : Str) :
    rpush (st0 ++ [(key, .rlist xs)]) key v = st0 ++ [(key, .rlist (xs ++ [v]))] := by
  have h1 := assocLookup_single_self h0 (RObj.rlist xs)
  simp only [rpush, h1]
  rw [assocSet_append_of_none h0]
  simp [assocSet]

theorem append3_store {st0 : Store} {key : Str} (h0 : assocLookup st0 key = none)
    (v1 v2 v3 : Str) :
    rpush (rpush (rpush st0 key v1) key v2) key v3 =
      st0 ++ [(key, .rlist [v1, v2, v3])] := by
  rw [rpush_fresh h0 v1, rpush_existing h0 [v1] v2]
  have h12 : ([v1] ++ [v2] : List Str) = [v1, v2] := rfl
  rw [h12, rpush_existing h0 [v1, v2] v3]
  rfl

/-! ## Helper lemma for list iteration -/

theorem List_iterRun_spec {st : Store} {key : Str} {xs : List Str}
    (h : assocLookup st key = some (.rlist xs)) :
    ∀ (fuel i : Nat), xs.length - i ≤ fuel →
      List_iterRun fuel st key i = ((xs.drop i).map (decodeD st), st) := by
  intro fuel
  induction fuel with
  | zero =>
    intro i hf
    have hlen : xs.length ≤ i := by omega
    simp [List_iterRun, List.drop_eq_nil_of_le hlen]
  | succ f ih =>
    intro i hf
    cases hx : xs[i]? with
    | none =>
      have hlen : xs.length ≤ i := List.getElem?_eq_none_iff.mp hx
      simp [List_iterRun, lindexNat_eq h i, hx, List.drop_eq_nil_of_le hlen]
    | some item =>
      have hlt : i < xs.length := by
        by_contra hc
        rw [List.getElem?_eq_none_iff.mpr (by omega)] at hx
        cases hx
      have hitem : xs[i] = item := by
        have h2 := List.getElem?_eq_getElem hlt
        rw [hx] at h2
        injection h2 with h2
        exact h2.symm
      have hdrop : xs.drop i = item :: xs.drop (i + 1) := by
        rw [List.drop_eq_getElem_cons hlt, hitem]
      have hih := ih (i + 1) (by omega)
      simp only [List_iterRun, lindexNat_eq h i, hx, hih, hdrop, List.map_cons]

/-! ## Claim theorems -/

/-- C2. For every Structure Handle `h` whose key exists in the store (the
store reports the handle's kind for its key, and the registry has a handler
for that kind), `decode (encode h)` returns a handle bound to the same key
and the same kind as `h`: `encode` produces the reference payload
`redis:struct:<key>`, and `decode` extracts exactly that key, performs
exactly one store round-trip (the type lookup), and constructs the matching
handle bound to it. -/
theorem claim_C2_handle_roundtrip (st : Store) (h : Handle)
    (hty : redisType st h.key = h.kind) (hreg : registryHas h.kind = true) :
    decodeCount st (encode (.ref h)) = (.ok (.handle h), 1) := by
  have hnone : ¬ (h.kind = "none".data) := by
    intro hk
    rw [hk] at hreg
    exact absurd hreg (by decide)
  simp only [encode, decodeCount, structTag_self_pre, structTag_strip, hty, if_true]
  rw [if_neg hnone, if_pos hreg]

/-- Witness for C2 at a concrete store and handle. -/
theorem claim_C2_witness :
    decodeCount [(['h'], .rlist [])] (encode (.ref ⟨['h'], "list".data⟩)) =
      (.ok (.handle ⟨['h'], "list".data⟩), 1) :=
  claim_C2_handle_roundtrip [(['h'], .rlist [])] ⟨['h'], "list".data⟩
    (by decide) (by decide)

/-- C3. For every value `v` that is not a Structure Handle and is
serializable by the codec (`json.loads (json.dumps v) = v`),
`decode (encode v) = v`: encoding produces the inline payload
`redis:abs:<serialized v>`, decoding strips exactly the tag and deserializes
back to `v`, and the decode performs zero store round-trips (`encode` takes
no store argument at all, so neither side touches the store). -/
theorem claim_C3_inline_roundtrip (st : Store) (v : Val)
    (hser : json_loads (json_dumps v) = some v) :
    decodeCount st (encode (.value v)) = (.ok (.value v), 0) :=
  decode_encode_value st v hser

/-- Witness for C3 at the string value `'a'` and the empty store. -/
theorem claim_C3_witness :
    json_loads (json_dumps (.vstr ['a'])) = some (.vstr ['a']) ∧
    decodeCount [] (encode (.value (.vstr ['a']))) = (.ok (.value (.vstr ['a'])), 0) :=
  ⟨by decide, claim_C3_inline_roundtrip [] (.vstr ['a']) (by decide)⟩

/-- C7. `decode` raises `DecodingError` exactly when the payload's prefix
matches neither the reference tag nor the inline tag, or when the payload is
a reference payload whose target key reports `none` (no longer exists) or
reports no kind the registry recognizes; and for every well-formed payload
whose reference target (if any) exists, `decode` raises no error (a
reference payload with a live, recognized target decodes to a handle, and an
inline payload whose body deserializes decodes to its value). -/
theorem claim_C7_decoding_error (st : Store) (p : Str) :
    (decodeD st p = .error .decodingError ↔
      ((structTag.isPrefixOf p = false ∧ absTag.isPrefixOf p = false) ∨
       (structTag.isPrefixOf p = true ∧
         (redisType st (p.drop (structTag.length + 1)) = "none".data ∨
          registryHas (redisType st (p.drop (structTag.length + 1))) = false)))) ∧
    (structTag.isPrefixOf p = true →
      redisType st (p.drop (structTag.length + 1)) ≠ "none".data →
      registryHas (redisType st (p.drop (structTag.length + 1))) = true →
      decodeD st p = .ok (.handle ⟨p.drop (structTag.length + 1),
        redisType st (p.drop (structTag.length + 1))⟩)) ∧
    (absTag.isPrefixOf p = true →
      ∀ v, json_loads (p.drop (absTag.length + 1)) = some v →
        decodeD st p = .ok (.value v)) := by
  cases hs : structTag.isPrefixOf p with
  | true =>
    have e1 : decodeD st p =
        (if redisType st (p.drop (structTag.length + 1)) = "none".data then
          Except.error DecodeErr.decodingError
        else if registryHas (redisType st (p.drop (structTag.length + 1))) then
          Except.ok (Decoded.handle ⟨p.drop (structTag.length + 1),
            redisType st (p.drop (structTag.length + 1))⟩)
        else Except.error DecodeErr.decodingError) := by
      show (decodeCount st p).1 = _
      unfold decodeCount
      rw [if_pos hs]
    refine ⟨?_, ?_, ?_⟩
    · rw [e1]
      constructor
      · intro herr
        by_cases hn : redisType st (p.drop (structTag.length + 1)) = "none".data
        · exact Or.inr ⟨rfl, Or.inl hn⟩
        · rw [if_neg hn] at herr
          cases hb : registryHas (redisType st (p.drop (structTag.length + 1))) with
          | true => rw [if_pos hb] at herr; cases herr
          | false => exact Or.inr ⟨rfl, Or.inr rfl⟩
      · intro hcond
        rcases hcond with ⟨hsf, _⟩ | ⟨_, hbad⟩
        · cases hsf
        · by_cases hn : redisType st (p.drop (structTag.length + 1)) = "none".data
          · rw [if_pos hn]
          · rcases hbad with hn2 | hrf
            · exact absurd hn2 hn
            · rw [if_neg hn, if_neg (by rw [hrf]; exact Bool.false_ne_true)]
    · intro _ hn hr
      rw [e1, if_neg hn, if_pos hr]
    · intro ha
      obtain ⟨t, ht⟩ := exists_of_isPrefixOf hs
      subst ht
      rw [absTag_not_pre_struct t] at ha
      cases ha
  | false =>
    have hsneg : ¬ (structTag.isPrefixOf p = true) := by
      rw [hs]; exact Bool.false_ne_true
    cases ha : absTag.isPrefixOf p with
    | true =>
      have e2 : decodeD st p =
          (match json_loads (p.drop (absTag.length + 1)) with
           | some v => Except.ok (Decoded.value v)
           | none => Except.error DecodeErr.valueError) := by
        show (decodeCount st p).1 = _
        unfold decodeCount
        rw [if_neg hsneg, if_pos ha]
      refine ⟨?_, ?_, ?_⟩
      · constructor
        · intro herr
          rw [e2] at herr
          cases hl : json_loads (p.drop (absTag.length + 1)) with
          | some v => rw [hl] at herr; cases herr
          | none =>
            rw [hl] at herr
            injection herr with hbad
            exact absurd hbad (by decide)
        · intro hcond
          rcases hcond with ⟨_, haf⟩ | ⟨hst, _⟩
          · cases haf
          · cases hst
      · intro hst
        cases hst
      · intro _ v hv
        rw [e2, hv]
    | false =>
      have e3 : decodeD st p = .error .decodingError := by
        show (decodeCount st p).1 = _
        unfold decodeCount
        rw [if_neg hsneg, if_neg (by rw [ha]; exact Bool.false_ne_true)]
      refine ⟨?_, ?_, ?_⟩
      · rw [e3]
        exact ⟨fun _ => Or.inl ⟨rfl, rfl⟩, fun _ => rfl⟩
      · intro hst
        cases hst
      · intro haf
        cases haf

/-- Witness for C7: a payload with an unrecognized prefix decodes to
`DecodingError`. -/
theorem claim_C7_witness : decodeD [] ['x'] = .error .decodingError :=
  (claim_C7_decoding_error [] ['x']).1.mpr (Or.inl (by decide))

/-- C5. Script execution resolves each declared key parameter in
declaration order by name lookup in the named arguments first, falling back
to consuming the next unused positional argument, then resolves the declared
argument parameters continuing the same positional cursor (first-fit, never
restarting per parameter): resolving `keys` from cursor 0 and then `args`
from the resulting cursor agrees with one first-fit pass over
`keys ++ args`; execution succeeds exactly when every declared parameter
without a named entry can consume a distinct positional argument, and
otherwise it fails with `ScriptArgumentError` and the script body is never
applied to the store. -/
theorem claim_C5_script_resolution (keys args : List Str)
    (body : List α → List α → Store → α × Store)
    (pos : List α) (named : List (Str × α)) (st : Store) :
    ((¬ countUnnamed named (keys ++ args) ≤ pos.length) →
      Script_execute keys args body pos named st = .error .scriptArgumentError) ∧
    ((∃ r, Script_execute keys args body pos named st = .ok r) ↔
      countUnnamed named (keys ++ args) ≤ pos.length) ∧
    (∀ ks i as2 j, resolveParams named pos keys 0 = .ok (ks, i) →
      resolveParams named pos args i = .ok (as2, j) →
      resolveParams named pos (keys ++ args) 0 = .ok (ks ++ as2, j) ∧
      Script_execute keys args body pos named st = .ok (body ks as2 st)) := by
  have htot := countUnnamed_append named keys args
  cases hk : resolveParams named pos keys 0 with
  | error e =>
    cases e
    have hexec : Script_execute keys args body pos named st =
        .error .scriptArgumentError := by
      simp only [Script_execute, hk]
    have hfailk : ¬ (countUnnamed named keys = 0 ∨
        0 + countUnnamed named keys ≤ pos.length) := by
      intro hc
      obtain ⟨r, hr⟩ := ((resolveParams_spec named pos keys 0).1).mpr hc
      rw [hk] at hr
      cases hr
    refine ⟨fun _ => hexec, ?_, ?_⟩
    · constructor
      · rintro ⟨r, hr⟩
        rw [hexec] at hr
        cases hr
      · intro hle
        exfalso
        exact hfailk (Or.inr (by omega))
    · intro ks i as2 j h1 h2
      cases h1
  | ok rk =>
    obtain ⟨ks0, i0⟩ := rk
    have hi0 : i0 = 0 + countUnnamed named keys :=
      (resolveParams_spec named pos keys 0).2 ks0 i0 hk
    cases ha2 : resolveParams named pos args i0 with
    | error e =>
      cases e
      have hexec : Script_execute keys args body pos named st =
          .error .scriptArgumentError := by
        simp only [Script_execute, hk, ha2]
      have hfaila : ¬ (countUnnamed named args = 0 ∨
          i0 + countUnnamed named args ≤ pos.length) := by
        intro hc
        obtain ⟨r, hr⟩ := ((resolveParams_spec named pos args i0).1).mpr hc
        rw [ha2] at hr
        cases hr
      refine ⟨fun _ => hexec, ?_, ?_⟩
      · constructor
        · rintro ⟨r, hr⟩
          rw [hexec] at hr
          cases hr
        · intro hle
          exfalso
          apply hfaila
          by_cases hca : countUnnamed named args = 0
          · exact Or.inl hca
          · exact Or.inr (by omega)
      · intro ks i as2 j h1 h2
        injection h1 with h1
        injection h1 with hks hi
        subst hks
        subst hi
        rw [ha2] at h2
        cases h2
    | ok ra =>
      obtain ⟨as0, j0⟩ := ra
      have hexec : Script_execute keys args body pos named st =
          .ok (body ks0 as0 st) := by
        simp only [Script_execute, hk, ha2]
      have hokk := ((resolveParams_spec named pos keys 0).1).mp ⟨(ks0, i0), hk⟩
      have hoka := ((resolveParams_spec named pos args i0).1).mp ⟨(as0, j0), ha2⟩
      have htotle : countUnnamed named (keys ++ args) ≤ pos.length := by omega
      refine ⟨fun hnot => absurd htotle hnot, ?_, ?_⟩
      · exact ⟨fun _ => htotle, fun _ => ⟨body ks0 as0 st, hexec⟩⟩
      · intro ks i as2 j h1 h2
        injection h1 with h1
        injection h1 with hks hi
        subst hks
        subst hi
        rw [ha2] at h2
        injection h2 with h2
        injection h2 with has hj
        subst has
        subst hj
        exact ⟨resolveParams_append named pos keys args 0 ks0 i0 as0 j0 hk ha2, hexec⟩

/-- Witness for C5: a script declaring `keys = ['key']`, `args = ['index']`
invoked with no arguments at all fails with `ScriptArgumentError`. -/
theorem claim_C5_witness :
    Script_execute (α := Str) ["key".data] ["index".data]
      (fun _ _ st => ([], st)) [] [] [] = .error .scriptArgumentError :=
  (claim_C5_script_resolution ["key".data] ["index".data]
    (fun _ _ st => ([], st)) [] [] []).1 (by decide)

/-- C6. Script registration is idempotent: per process and per distinct
script id (each `Script` subclass carries its own class-level state), the
body is uploaded to the store at most once — from an unregistered state any
sequence of `register`/`execute` calls performs at most one upload, a second
`register` after a first is a no-op, and once the state is registered (as it
is after the first execution) every subsequent `register` or `execute` call
leaves the state, and hence the stored compiled reference, unchanged. -/
theorem claim_C6_registration_idempotent (s : ScriptRegState) (ops : List RegOp) :
    Script_register (Script_register s) = Script_register s ∧
    (applyRegOps s ops).uploads ≤ s.uploads + (if s.isRegistered then 0 else 1) ∧
    (s.isRegistered = true → applyRegOps s ops = s) := by
  refine ⟨?_, ?_, fun h => applyRegOps_registered h ops⟩
  · cases hreg : s.isRegistered
    · simp [Script_register, hreg]
    · simp [Script_register, hreg]
  · cases hreg : s.isRegistered with
    | true =>
      rw [applyRegOps_registered hreg ops]
      simp
    | false =>
      cases ops with
      | nil =>
        simp [applyRegOps]
      | cons op ops =>
        have hstep : applyRegOp s op =
            { isRegistered := true, uploads := s.uploads + 1 } := by
          cases op <;> simp [applyRegOp, Script_register, Script_executeReg, hreg]
        calc (applyRegOps s (op :: ops)).uploads
            = (applyRegOps (applyRegOp s op) ops).uploads := rfl
          _ = s.uploads + 1 := by rw [hstep, applyRegOps_registered rfl ops]
          _ ≤ s.uploads + (if false = true then 0 else 1) := by simp

/-- Witness for C6: on an already-registered state with one past upload,
further register/execute calls change nothing. -/
theorem claim_C6_witness :
    applyRegOps ⟨true, 1⟩ [.register, .execute, .register] = ⟨true, 1⟩ :=
  (claim_C6_registration_idempotent ⟨true, 1⟩
    [.register, .execute, .register]).2.2 rfl

/-- C9. Iterating a list is a sequence of indexed reads starting at index
0 and ending when a lookup returns absent; it is finite and restartable: for
any fuel bound at least the stored length the run yields exactly the decoded
stored elements (so it terminates at the end of the list), it leaves the
store unchanged (the loop only issues reads), and a second iteration started
on the store the first one leaves behind yields the same sequence. -/
theorem claim_C9_list_iteration (st : Store) (key : Str) (xs : List Str)
    (fuel : Nat) (h : assocLookup st key = some (.rlist xs))
    (hf : xs.length ≤ fuel) :
    List_iterRun fuel st key 0 = (xs.map (decodeD st), st) ∧
    (List_iterRun fuel (List_iterRun fuel st key 0).2 key 0).1 =
      (List_iterRun fuel st key 0).1 := by
  have h1 := List_iterRun_spec h fuel 0 (by omega)
  rw [List.drop_zero] at h1
  exact ⟨h1, by simp [h1]⟩

/-- Concrete two-element list used by the C9 witness. -/
def c9Key : Str := ['L']

/-- Stored payloads of the C9 witness list. -/
def c9Elems : List Str := [encode (.value (.vstr ['a'])), encode (.value (.vstr ['b']))]

/-- The C9 witness store. -/
def c9Store : Store := [(c9Key, .rlist c9Elems)]

/-- Witness for C9 at a concrete two-element list. -/
theorem claim_C9_witness :
    List_iterRun 2 c9Store c9Key 0 = (c9Elems.map (decodeD c9Store), c9Store) ∧
    (List_iterRun 2 (List_iterRun 2 c9Store c9Key 0).2 c9Key 0).1 =
      (List_iterRun 2 c9Store c9Key 0).1 :=
  claim_C9_list_iteration c9Store c9Key c9Elems 2 (by decide) (by decide)

/-- C10. For every list of length `n` and every integer `i` with
`-n ≤ i ≤ -1`, the indexed reads `__getitem__(i)` and `index(i)` return the
decoded element at position `n + i` rather than raising, and `IndexError` is
raised exactly when `i < -n` or `i ≥ n`. -/
theorem claim_C10_negative_index (st : Store) (key : Str) (xs : List Str)
    (i : Int) (h : assocLookup st key = some (.rlist xs)) :
    ((-(xs.length : Int) ≤ i ∧ i ≤ -1) →
      ∃ p, xs[((xs.length : Int) + i).toNat]? = some p ∧
        ∀ d, decodeD st p = .ok d →
          List_index_py st key i = .ok d ∧ List_getitem st key i = .ok d) ∧
    (List_index_py st key i = .error .indexError ↔
      (i < -(xs.length : Int) ∨ (xs.length : Int) ≤ i)) ∧
    (List_getitem st key i = .error .indexError ↔
      (i < -(xs.length : Int) ∨ (xs.length : Int) ≤ i)) := by
  refine ⟨?_, ?_, ?_⟩
  · rintro ⟨h1, h2⟩
    have hlt : ((xs.length : Int) + i).toNat < xs.length := by omega
    obtain ⟨p, hp⟩ : ∃ p, xs[((xs.length : Int) + i).toNat]? = some p :=
      ⟨_, List.getElem?_eq_getElem hlt⟩
    have hl : lindexInt st key i = some p := by
      rw [lindexInt_neg h i h1 h2, hp]
    refine ⟨p, hp, ?_⟩
    intro d hd
    constructor
    · simp only [List_index_py, hl, hd]
    · simp only [List_getitem, hl, hd]
  · constructor
    · intro herr
      cases hx : lindexInt st key i with
      | none => exact (lindexInt_none_iff h i).mp hx
      | some p =>
        simp only [List_index_py, hx] at herr
        cases hd : decodeD st p with
        | ok d => rw [hd] at herr; cases herr
        | error e =>
          rw [hd] at herr
          injection herr with h3
          cases h3
    · intro hout
      have hx : lindexInt st key i = none := (lindexInt_none_iff h i).mpr hout
      simp only [List_index_py, hx]
  · constructor
    · intro herr
      cases hx : lindexInt st key i with
      | none => exact (lindexInt_none_iff h i).mp hx
      | some p =>
        simp only [List_getitem, hx] at herr
        cases hd : decodeD st p with
        | ok d => rw [hd] at herr; cases herr
        | error e =>
          rw [hd] at herr
          injection herr with h3
          cases h3
    · intro hout
      have hx : lindexInt st key i = none := (lindexInt_none_iff h i).mpr hout
      simp only [List_getitem, hx]

/-- The C10 witness store: one list holding the inline encoding of `'y'`. -/
def c10Key : Str := ['k']

/-- Stored payloads of the C10 witness list. -/
def c10Elems : List Str := [encode (.value (.vstr ['y']))]

/-- The C10 witness store. -/
def c10Store : Store := [(c10Key, .rlist c10Elems)]

/-- Witness for C10: index `-1` on a one-element list returns the decoded
last element through both `index` and `__getitem__`. -/
theorem claim_C10_witness :
    List_index_py c10Store c10Key (-1) = .ok (.value (.vstr ['y'])) ∧
    List_getitem c10Store c10Key (-1) = .ok (.value (.vstr ['y'])) := by
  have h := (claim_C10_negative_index c10Store c10Key c10Elems (-1)
    (by decide)).1 (by constructor <;> decide)
  obtain ⟨p, hp, hres⟩ := h
  have he : c10Elems[((c10Elems.length : Int) + (-1)).toNat]? =
      some (encode (.value (.vstr ['y']))) := by decide
  rw [he] at hp
  injection hp with hp2
  subst hp2
  exact hres (.value (.vstr ['y'])) rfl

/-! ## Helper lemma for the pop script on a three-element list -/

theorem ListPop_mid {st0 : Store} {key : Str} (h0 : assocLookup st0 key = none)
    (x y z : Str) (hx : x ≠ delval) (hz : z ≠ delval) :
    List_pop (st0 ++ [(key, .rlist [x, y, z])]) key 1 =
      .ok (some y, st0 ++ [(key, .rlist [x, z])]) := by
  have hlk := assocLookup_single_self h0 (RObj.rlist [x, y, z])
  have hitem : lindexInt (st0 ++ [(key, .rlist [x, y, z])]) key 1 = some y := by
    rw [lindexInt_nonneg hlk 1 (by omega)]
    rfl
  have hset : lset (st0 ++ [(key, .rlist [x, y, z])]) key 1 delval =
      .ok (st0 ++ [(key, .rlist [x, delval, z])]) := by
    simp only [lset, hlk]
    norm_num
    rw [assocSet_append_of_none h0]
    simp [assocSet]
  have hlk2 := assocLookup_single_self h0 (RObj.rlist [x, delval, z])
  have hrem : lrem (st0 ++ [(key, .rlist [x, delval, z])]) key 0 delval =
      st0 ++ [(key, .rlist [x, z])] := by
    simp only [lrem, hlk2]
    have hfx : (x == delval) = false := by
      rw [beq_eq_false_iff_ne]
      exact hx
    have hfz : (z == delval) = false := by
      rw [beq_eq_false_iff_ne]
      exact hz
    rw [if_pos trivial]
    have hfilter : List.filter (fun w => !(w == delval)) [x, delval, z] = [x, z] := by
      simp [List.filter_cons, hfx, hfz]
    rw [hfilter, assocSet_append_of_none h0]
    simp [assocSet]
  simp only [List_pop, ListPop_run, hitem, hset, hrem]

/-- C4 (amended). On a fresh list, after `append(a); append(b);
append(c)`, calling `pop(1)` removes the middle element from the stored list
— the remaining stored list is exactly `[encode a, encode c]` — and returns
the raw stored payload `encode b` (the `pop` path applies no decoding step,
so the caller receives the encoded payload, not the decoded value `b`); a
subsequent iteration over the list yields exactly the decoded sequence
`[a, c]`. -/
theorem claim_C4_pop_amended (st0 : Store) (key : Str) (a b c : Val)
    (h0 : assocLookup st0 key = none)
    (ha : json_loads (json_dumps a) = some a)
    (hc : json_loads (json_dumps c) = some c) :
    List_pop (List_append (List_append (List_append st0 key (.value a)) key
        (.value b)) key (.value c)) key 1 =
      .ok (some (encode (.value b)),
        st0 ++ [(key, .rlist [encode (.value a), encode (.value c)])]) ∧
    ∀ fuel, 2 ≤ fuel →
      (List_iterRun fuel
        (st0 ++ [(key, .rlist [encode (.value a), encode (.value c)])])
        key 0).1 = [.ok (.value a), .ok (.value c)] := by
  have hst3 : List_append (List_append (List_append st0 key (.value a)) key
      (.value b)) key (.value c) =
      st0 ++ [(key, .rlist [encode (.value a), encode (.value b),
        encode (.value c)])] := by
    simp only [List_append]
    exact append3_store h0 _ _ _
  constructor
  · rw [hst3]
    exact ListPop_mid h0 _ _ _ (encode_value_ne_delval a) (encode_value_ne_delval c)
  · intro fuel hfuel
    have hlk2 := assocLookup_single_self h0
      (RObj.rlist [encode (.value a), encode (.value c)])
    have hit := List_iterRun_spec hlk2 fuel 0 (by simp; omega)
    rw [List.drop_zero] at hit
    have hda : decodeD (st0 ++ [(key, .rlist [encode (.value a),
        encode (.value c)])]) (encode (.value a)) = .ok (.value a) := by
      show (decodeCount _ _).1 = _
      rw [decode_encode_value _ a ha]
    have hdc : decodeD (st0 ++ [(key, .rlist [encode (.value a),
        encode (.value c)])]) (encode (.value c)) = .ok (.value c) := by
      show (decodeCount _ _).1 = _
      rw [decode_encode_value _ c hc]
    rw [hit]
    simp [hda, hdc]

/-- The key of the C4 concrete scenario. -/
def c4Key : Str := ['L']

/-- A one-character inline string value for the C4 concrete scenario. -/
def c4Val (ch : Char) : Item := .value (.vstr [ch])

/-- The C4 store after `append('a'); append('b'); append('c')` on a fresh
list. -/
def c4Store : Store :=
  List_append (List_append (List_append [] c4Key (c4Val 'a')) c4Key
    (c4Val 'b')) c4Key (c4Val 'c')

/-- Counterexample to C4 as stated: after appending `'a'`, `'b'`, `'c'`,
`pop(1)` does remove the middle element, but the value it returns is the raw
stored payload `redis:abs:"b"` — `List.pop` returns the script result with
no decoding step — which differs from the decoded middle element, the
one-character string `b`. -/
theorem claim_C4_counterexample :
    List_pop c4Store c4Key 1 =
      .ok (some (encode (c4Val 'b')),
        [(c4Key, .rlist [encode (c4Val 'a'), encode (c4Val 'c')])]) ∧
    decodeD [(c4Key, .rlist [encode (c4Val 'a'), encode (c4Val 'c')])]
      (encode (c4Val 'b')) = .ok (.value (.vstr ['b'])) ∧
    encode (c4Val 'b') ≠ ['b'] :=
  ⟨rfl, rfl, by decide⟩

/-- Witness for the amended C4 at the concrete scenario. -/
theorem claim_C4_witness :
    List_pop c4Store c4Key 1 =
      .ok (some (encode (c4Val 'b')),
        [] ++ [(c4Key, .rlist [encode (c4Val 'a'), encode (c4Val 'c')])]) ∧
    (List_iterRun 2 ([] ++ [(c4Key, .rlist [encode (c4Val 'a'),
        encode (c4Val 'c')])]) c4Key 0).1 =
      [.ok (.value (.vstr ['a'])), .ok (.value (.vstr ['c']))] := by
  have h := claim_C4_pop_amended [] c4Key (.vstr ['a']) (.vstr ['b'])
    (.vstr ['c']) rfl (by decide) (by decide)
  exact ⟨h.1, h.2 2 (by omega)⟩

/-- The key of the C8 concrete store. -/
def c8Key : Str := ['L']

/-- The C8 concrete store: a one-element list. -/
def c8Store : Store := [(c8Key, .rlist [encode (.value (.vstr ['a']))])]

/-- C8 (code bug). `List.insert` never inserts: the `ListInsert` script
issues `redis.call('LINSERT', key, redis.call('LINDEX', key, index), item)`,
which passes only three arguments to `LINSERT` (the mandatory
`BEFORE|AFTER` modifier is missing), so the store rejects the command with a
wrong-number-of-arguments error and the script aborts — both at an in-range
index (where the claim promises an insertion before index `i`) and at an
out-of-range index (where the claim promises `IndexError`; the store error
propagates unconverted, since `List.insert` has no `except ResponseError`
clause). -/
theorem claim_C8_insert_broken :
    List_insert c8Store c8Key 0 (.value (.vstr ['v'])) = .error .wrongArity ∧
    List_insert c8Store c8Key 5 (.value (.vstr ['v'])) = .error .wrongArity :=
  ⟨rfl, rfl⟩

/-- The C1 scenario store: a list `L` holding an inline payload `x` and the
reference payload for hash `H`, and the hash `H` itself. -/
def c1Store (kL kH x : Str) (fs : List (Str × Str)) : Store :=
  [(kL, .rlist [x, encode (.ref ⟨kH, "hash".data⟩)]), (kH, .rhash fs)]

/-- The `DeleteAll` script body (`deleteRefs`), were it ever executed on the
C1 scenario, would implement exactly the cascade the spec describes: it
walks `L`'s elements, recursively deletes the element whose payload carries
the reference tag before deleting the container, leaves the inline element
untouched, and both type lookups afterwards report `none`.  This documents
that the claimed behavior is implemented in the script text — the code bug
is that no runnable `delete()` ever dispatches it (see `DataType_delete`). -/
theorem DeleteAll_script_cascade (m : Nat) (kL kH x : Str)
    (fs : List (Str × Str)) (hne : kL ≠ kH)
    (hx : isRedisDatatype x = false)
    (hfs : ∀ v ∈ fs.map (·.2), isRedisDatatype v = false)
    (hm : fs.length ≤ m) :
    deleteRefs (m + 8) (c1Store kL kH x fs) kL = [] ∧
    redisType (deleteRefs (m + 8) (c1Store kL kH x fs) kL) kL =
      "none".data ∧
    redisType (deleteRefs (m + 8) (c1Store kL kH x fs) kL) kH =
      "none".data := by
  have hlookL : assocLookup (c1Store kL kH x fs) kL =
      some (RObj.rlist [x, encode (.ref ⟨kH, "hash".data⟩)]) := by
    simp [c1Store, assocLookup]
  have hlookH : assocLookup (c1Store kL kH x fs) kH =
      some (RObj.rhash fs) := by
    simp [c1Store, assocLookup, hne]
  have htypeL : redisType (c1Store kL kH x fs) kL = "list".data := by
    simp only [redisType, hlookL]
  have htypeH : redisType (c1Store kL kH x fs) kH = "hash".data := by
    simp only [redisType, hlookH]
  have hlin0 : lindexNat (c1Store kL kH x fs) kL 0 = some x := by
    rw [lindexNat_eq hlookL 0]
    rfl
  have hlin1 : lindexNat (c1Store kL kH x fs) kL 1 =
      some (encode (.ref ⟨kH, "hash".data⟩)) := by
    rw [lindexNat_eq hlookL 1]
    rfl
  have hisref : isRedisDatatype (encode (.ref ⟨kH, "hash".data⟩)) = true :=
    isRedisDatatype_ref kH
  have hgetref : getReference (encode (.ref ⟨kH, "hash".data⟩)) = kH :=
    getReference_encode kH
  have hv : hvals (c1Store kL kH x fs) kH = fs.map (·.2) := by
    simp [hvals, hlookH]
  have eH : deleteRefs ((m + 3) + 1) (c1Store kL kH x fs) kH =
      storeDel kH (c1Store kL kH x fs) := by
    simp only [deleteRefs, htypeH]
    rw [if_pos trivial, hv, walkVals_inline (fs.map (·.2)) (m + 3) _
      (by simp only [List.length_map]; omega) hfs]
    rw [if_neg (by decide : ¬ ((['h', 'a', 's', 'h'] : Str) = ['l', 'i', 's', 't']))]
  have eC : checkRefs ((m + 4) + 1) (c1Store kL kH x fs)
      (encode (.ref ⟨kH, "hash".data⟩)) =
      deleteRefs (m + 4) (c1Store kL kH x fs) kH := by
    simp only [checkRefs, hisref, hgetref, if_true]
  have eS : storeDel kH (c1Store kL kH x fs) =
      [(kL, RObj.rlist [x, encode (.ref ⟨kH, "hash".data⟩)])] := by
    have h1 : (kL == kH) = false := beq_eq_false_iff_ne.mpr hne
    simp [c1Store, storeDel, List.filter_cons, h1]
  have hlook1 : assocLookup
      [(kL, RObj.rlist [x, encode (.ref ⟨kH, "hash".data⟩)])] kL =
      some (RObj.rlist [x, encode (.ref ⟨kH, "hash".data⟩)]) := by
    simp [assocLookup]
  have hlin2 : lindexNat
      [(kL, RObj.rlist [x, encode (.ref ⟨kH, "hash".data⟩)])] kL 2 = none := by
    rw [lindexNat_eq hlook1 2]
    rfl
  have step1 : deleteRefs (m + 8) (c1Store kL kH x fs) kL =
      storeDel kL (walkListRefs (m + 7) (c1Store kL kH x fs) kL 0) := by
    rw [show m + 8 = (m + 7) + 1 from rfl]
    simp only [deleteRefs, htypeL]
    rw [if_pos trivial]
  have step2 : walkListRefs (m + 7) (c1Store kL kH x fs) kL 0 =
      walkListRefs (m + 6) (c1Store kL kH x fs) kL 1 := by
    rw [show m + 7 = (m + 6) + 1 from rfl]
    simp only [walkListRefs, hlin0]
    rw [checkRefs_inline (m + 6) (c1Store kL kH x fs) hx]
  have step3 : walkListRefs (m + 6) (c1Store kL kH x fs) kL 1 =
      walkListRefs (m + 5)
        [(kL, RObj.rlist [x, encode (.ref ⟨kH, "hash".data⟩)])] kL 2 := by
    rw [show m + 6 = (m + 5) + 1 from rfl]
    simp only [walkListRefs, hlin1]
    rw [show m + 5 = (m + 4) + 1 from rfl, eC,
      show m + 4 = (m + 3) + 1 from rfl, eH, eS]
  have step4 : walkListRefs (m + 5)
      [(kL, RObj.rlist [x, encode (.ref ⟨kH, "hash".data⟩)])] kL 2 =
      [(kL, RObj.rlist [x, encode (.ref ⟨kH, "hash".data⟩)])] := by
    rw [show m + 5 = (m + 4) + 1 from rfl]
    simp only [walkListRefs, hlin2]
  have hdel : deleteRefs (m + 8) (c1Store kL kH x fs) kL = [] := by
    rw [step1, step2, step3, step4]
    simp [storeDel]
  exact ⟨hdel, by rw [hdel]; rfl, by rw [hdel]; rfl⟩

/-- C1 (code bug).  Given a list `L` containing an inline value `x` and a
reference payload to a hash `H`, calling `delete()` on `L` — the plain
single-key `DEL` of datatype.py lines 131-133 that every list handle
actually inherits — removes only `L`'s key: `H`'s binding is left in the
store untouched, a type lookup on `L` reports `none` but a type lookup on
`H` still reports `hash`, contradicting the claim that both keys are
removed.  (The `DeleteAll` cascade the claim and the spec describe exists
only as the inert script text; see `DeleteAll_script_cascade` for what it
would do, and `DataType_delete` for why it is unreachable.) -/
theorem claim_C1_delete_leaves_reference (kL kH x : Str)
    (fs : List (Str × Str)) (hne : kL ≠ kH) :
    DataType_delete (c1Store kL kH x fs) kL = [(kH, .rhash fs)] ∧
    redisType (DataType_delete (c1Store kL kH x fs) kL) kL = "none".data ∧
    redisType (DataType_delete (c1Store kL kH x fs) kL) kH = "hash".data := by
  have h2 : (kH == kL) = false := beq_eq_false_iff_ne.mpr (Ne.symm hne)
  have h3 : ¬ (kH = kL) := fun h => hne h.symm
  have hd : DataType_delete (c1Store kL kH x fs) kL = [(kH, RObj.rhash fs)] := by
    simp [DataType_delete, storeDel, c1Store, List.filter_cons, h2]
  refine ⟨hd, ?_, ?_⟩
  · rw [hd]
    simp [redisType, assocLookup, h3]
  · rw [hd]
    simp [redisType, assocLookup]

/-- Witness for C1: on the concrete scenario `L = [inline 'x', ref H]` with
a one-field hash `H`, `delete()` on `L` leaves `H` in the store and its type
lookup still reports `hash`. -/
theorem claim_C1_delete_witness :
    DataType_delete (c1Store ['L'] ['H'] (encode (.value (.vstr ['x'])))
      [(['f'], encode (.value (.vstr ['w'])))]) ['L'] =
      [(['H'], .rhash [(['f'], encode (.value (.vstr ['w'])))])] ∧
    redisType (DataType_delete (c1Store ['L'] ['H']
      (encode (.value (.vstr ['x']))) [(['f'], encode (.value (.vstr ['w'])))])
      ['L']) ['L'] = "none".data ∧
    redisType (DataType_delete (c1Store ['L'] ['H']
      (encode (.value (.vstr ['x']))) [(['f'], encode (.value (.vstr ['w'])))])
      ['L']) ['H'] = "hash".data :=
  claim_C1_delete_leaves_reference ['L'] ['H'] (encode (.value (.vstr ['x'])))
    [(['f'], encode (.value (.vstr ['w'])))] (by decide)
